import Mathlib

/-!
Verification of the XML→JSON invoice mapper (`src/app.py`).

The development shallowly embeds the core of the program:
* `extract_namespaces` — the regex scan for `xmlns:p="uri"` / `xmlns="uri"`
  declarations over the raw document text;
* `xml_to_dict` — the generic tree-to-mapping projector;
* `text_or_none`, `find_first_text`, `find_all_text` — the field locator,
  on top of a model of `xml.etree` path evaluation for the path fragment
  the program uses (`.//tok//tok//…`, tokens being plain or prefixed tags);
* `map_invoice_common` — the common-fields mapper.

XML elements are modelled by `XmlElem` (tag, attributes, text, tail,
children); JSON-like outputs by `JVal`.  Python dicts are modelled as
insertion-ordered association lists.  Fallible code is modelled with
`Except`: per `xml.etree.ElementPath.xpath_tokenizer`, compiling a path
whose namespace prefix is absent from the supplied map raises
`SyntaxError`, and the program never catches it.  Python string
primitives (`str.strip`, `str.split`) are given executable character-list
models so that every definition evaluates inside the kernel.
-/

namespace XmlMapper

/-- Model of an `xml.etree` element: qualified tag (`\x7buri\x7dlocal` or plain),
ordered attributes, optional text, optional tail, ordered children. -/
structure XmlElem where
  tag : String
  attrib : List (String × String)
  text : Option String
  tail : Option String
  children : List XmlElem
deriving Repr

/-- JSON-like values produced by the mapper: strings, insertion-ordered
objects, and arrays. -/
inductive JVal where
  | str : String → JVal
  | obj : List (String × JVal) → JVal
  | arr : List JVal → JVal
deriving Repr

/-- The closing-brace character `\x7d` that ends a `\x7buri\x7d` tag qualifier. -/
def rbrace : Char := Char.ofNat 125

/-- The opening-brace character `\x7b` that starts a `\x7buri\x7d` tag qualifier. -/
def lbrace : Char := Char.ofNat 123

/-- Everything after the first occurrence of `c`, or `none` when `c` does not
occur — the character-list core of Python `s.split(c, 1)[-1]`. -/
def afterChar (c : Char) : List Char → Option (List Char)
  | [] => none
  | x :: xs => if x = c then some xs else afterChar c xs

/-- Embeds `strip_ns` (src/app.py:80): `tag.split("\x7d", 1)[-1] if "\x7d" in tag
else tag`, i.e. everything after the first `\x7d` when one occurs. -/
def strip_ns (tag : String) : String :=
  match afterChar rbrace tag.data with
  | some rest => String.mk rest
  | none => tag

/-- Character-list model of Python `str.strip()`: drop whitespace from both
ends. -/
def trimChars (cs : List Char) : List Char :=
  ((cs.dropWhile Char.isWhitespace).reverse.dropWhile Char.isWhitespace).reverse

/-- Python `s.strip()` on a string. -/
def pyStrip (s : String) : String := String.mk (trimChars s.data)

/-- Python `dict.setdefault(k, []).append(v)` on an insertion-ordered
association list: append `v` to the entry of `k`, creating the entry at the
end when absent. -/
def dictAppend (key : String) (v : JVal) : List (String × List JVal) → List (String × List JVal)
  | [] => [(key, [v])]
  | (k0, vs) :: rest =>
      if k0 = key then (k0, vs ++ [v]) :: rest else (k0, vs) :: dictAppend key v rest

/-- The grouping loop of `xml_to_dict` (src/app.py:97-100): left-to-right
`setdefault`-append over the already-projected `(localTag, value)` pairs. -/
def groupPairs (ps : List (String × JVal)) : List (String × List JVal) :=
  ps.foldl (fun acc kv => dictAppend kv.1 kv.2 acc) []

/-- Python `dict[k] = v` on an insertion-ordered association list: replace in
place when the key exists, append otherwise. -/
def objInsert (key : String) (v : JVal) : List (String × JVal) → List (String × JVal)
  | [] => [(key, v)]
  | (k0, v0) :: rest =>
      if k0 = key then (k0, v) :: rest else (k0, v0) :: objInsert key v rest

/-- Python `elem.text or ""`. -/
def pyText (e : XmlElem) : String := e.text.getD ""

/-- Wraps the projected pieces of an element into its `JVal`: the common
tail of `xml_to_dict` (src/app.py:104-116) once the children are projected
to tagged values `kids`.  Non-empty stripped text becomes the whole value
for structureless elements, otherwise a `"#text"` entry; attributes become
an `"@attrs"` entry; the result is a single-key object under the stripped
tag. -/
def wrapNode (tag : String) (attrs : List (String × String)) (text : String)
    (kids : List (String × JVal)) : JVal :=
  let node1 : List (String × JVal) :=
    (groupPairs kids).map (fun kv =>
      match kv.2 with
      | [v] => (kv.1, v)
      | vs => (kv.1, JVal.arr vs))
  if text ≠ "" ∧ node1.isEmpty ∧ attrs.isEmpty then
    JVal.obj [(strip_ns tag, JVal.str text)]
  else
    let node2 := if text ≠ "" then objInsert "#text" (JVal.str text) node1 else node1
    let node3 :=
      if attrs.isEmpty then node2
      else objInsert "@attrs" (JVal.obj (attrs.map (fun kv => (kv.1, JVal.str kv.2)))) node2
    JVal.obj [(strip_ns tag,
      if node3.isEmpty then (if text ≠ "" then JVal.str text else JVal.obj [])
      else JVal.obj node3)]

mutual

/-- Embeds `xml_to_dict` (src/app.py:84-116): children are projected in
document order and tagged with their local tag, then grouped
(`v[0] if len(v) == 1 else v` collapses singletons) and wrapped by
`wrapNode`. -/
def xml_to_dict : XmlElem → JVal
  | ⟨tag, attrib, text, _, children⟩ =>
    wrapNode tag attrib (pyStrip ((text).getD "")) (projKids children)

/-- Projects a child list to its `(localTag, projection)` pairs, in
document order (the loop of src/app.py:98-100 before grouping). -/
def projKids : List XmlElem → List (String × JVal)
  | [] => []
  | c :: cs => (strip_ns c.tag, xml_to_dict c) :: projKids cs

end

/-! ## Namespace extraction (src/app.py:38-49)

`extract_namespaces` scans the decoded document text with
`re.findall(r'\sxmlns:([A-Za-z0-9_]+)="([^"]+)"', text)` and
`re.search(r'\sxmlns="([^"]+)"', text)`.  Both patterns are deterministic
(their character classes exclude the delimiters that follow), so the
regex engine's leftmost, non-overlapping scan is modelled exactly by a
greedy single-pass scanner. -/

/-- Character class `[A-Za-z0-9_]` of the prefix capture group. -/
def isNameChar (c : Char) : Bool := c.isAlphanum || c = Char.ofNat 95

/-- Strips the literal character pattern `ps` off the front of `cs`. -/
def stripLit : List Char → List Char → Option (List Char)
  | [], cs => some cs
  | _ :: _, [] => none
  | p :: ps, c :: cs => if c = p then stripLit ps cs else none

/-- Matches `xmlns:PFX="URI"` at the head of `cs` (the `\s` already
consumed): greedy nonempty `[A-Za-z0-9_]+` prefix, then `="`, then greedy
nonempty `[^"]+`, then `"`.  Returns prefix, URI, and the rest of the
input after the closing quote. -/
def matchDecl (cs : List Char) : Option (String × String × List Char) :=
  match stripLit "xmlns:".data cs with
  | none => none
  | some cs1 =>
    let pfxCs := cs1.takeWhile isNameChar
    let cs2 := cs1.dropWhile isNameChar
    if pfxCs.isEmpty then none
    else
      match stripLit "=\"".data cs2 with
      | none => none
      | some cs3 =>
        let uriCs := cs3.takeWhile (fun ch => ch ≠ '"')
        let cs4 := cs3.dropWhile (fun ch => ch ≠ '"')
        if uriCs.isEmpty then none
        else
          match cs4 with
          | '"' :: rest => some (String.mk pfxCs, String.mk uriCs, rest)
          | _ => none

/-- Fuelled worker for the `re.findall` scan: walk the text left to right,
and at each whitespace character try to match a declaration right after
it, continuing after the closing quote on success (non-overlapping
matches).  Every step strictly shortens the input, so fuel equal to the
input length (see `scanNsDecls`) never runs out. -/
def scanNsDeclsGo : Nat → List Char → List (String × String)
  | 0, _ => []
  | _ + 1, [] => []
  | fuel + 1, c :: rest =>
    if c.isWhitespace then
      match matchDecl rest with
      | some (p, u, rest2) => (p, u) :: scanNsDeclsGo fuel rest2
      | none => scanNsDeclsGo fuel rest
    else scanNsDeclsGo fuel rest

/-- The `re.findall(r'\sxmlns:([A-Za-z0-9_]+)="([^"]+)"', text)` scan. -/
def scanNsDecls (cs : List Char) : List (String × String) := scanNsDeclsGo cs.length cs

/-- The `re.search` scan for the first default declaration `xmlns="URI"`. -/
def matchDefaultDecl (cs : List Char) : Option String :=
  match stripLit "xmlns=\"".data cs with
  | none => none
  | some cs1 =>
    let uriCs := cs1.takeWhile (fun ch => ch ≠ '"')
    let cs2 := cs1.dropWhile (fun ch => ch ≠ '"')
    if uriCs.isEmpty then none
    else
      match cs2 with
      | '"' :: _ => some (String.mk uriCs)
      | _ => none

/-- First match of `\sxmlns="([^"]+)"` in the text, if any. -/
def scanDefaultNs : List Char → Option String
  | [] => none
  | c :: rest =>
    if c.isWhitespace then
      match matchDefaultDecl rest with
      | some u => some u
      | none => scanDefaultNs rest
    else scanDefaultNs rest

/-- Python `dict[k] = v` on a string-valued insertion-ordered association
list (same as `objInsert`, at value type `String`). -/
def dictInsert (key v : String) : List (String × String) → List (String × String)
  | [] => [(key, v)]
  | (k0, v0) :: rest =>
      if k0 = key then (k0, v) :: rest else (k0, v0) :: dictInsert key v rest

/-- Embeds `extract_namespaces` (src/app.py:38-49): `dict(re.findall(...))`
built left to right (later pairs overwrite earlier ones), then the first
default declaration stored under the reserved key `"default"`. -/
def extract_namespaces (text : String) : List (String × String) :=
  let ns := (scanNsDecls text.data).foldl (fun acc pu => dictInsert pu.1 pu.2 acc) []
  match scanDefaultNs text.data with
  | some u => dictInsert "default" u ns
  | none => ns

/-! ## Path evaluation (model of `xml.etree` `find`/`findall`)

The program only ever queries paths of the shape `.//tok//tok//…`, where
each token is a plain tag (`ID`) or a prefixed tag (`cbc:ID`).  For this
fragment `ElementPath` compiles the path into a chain of descendant
selectors — each `//tok` step selects, for every element in the current
result set, the proper descendants (`e is not elem` guard in
`prepare_descendant`) whose qualified tag equals the resolved token, in
document order.  Token resolution (`xpath_tokenizer`): a token containing
`:` is split at the first colon and the prefix is looked up in the
supplied map — a missing prefix (also with an empty map) raises
`SyntaxError`; a plain token is qualified by the default namespace only
when the map binds the key `""` to a non-empty URI; a resolved tag with
an empty URI, `\x7b\x7dtag`, is reduced to `tag` by `prepare_descendant`. -/

/-- Splits at the first occurrence of `c`: Python `s.split(c, 1)` when `c`
occurs. -/
def splitAtFirst (c : Char) : List Char → Option (List Char × List Char)
  | [] => none
  | x :: xs =>
    if x = c then some ([], xs)
    else (splitAtFirst c xs).map (fun pr => (x :: pr.1, pr.2))

/-- Resolves one path token against the namespace map, `none` modelling the
`SyntaxError` raised for a missing prefix. -/
def resolveToken (ns : List (String × String)) (tok : String) : Option String :=
  match tok.data with
  | [] => some tok
  | t0 :: _ =>
    if t0 = lbrace then some tok
    else
      match splitAtFirst ':' tok.data with
      | some (pre, loc) =>
        match ns.lookup (String.mk pre) with
        | some uri => some ("\x7b" ++ uri ++ "\x7d" ++ String.mk loc)
        | none => none
      | none =>
        match ns.lookup "" with
        | some uri => if uri ≠ "" then some ("\x7b" ++ uri ++ "\x7d" ++ tok) else some tok
        | none => some tok

/-- Reduces `\x7b\x7dtag` to `tag` (`prepare_descendant`, ElementPath). -/
def dropEmptyNs (t : String) : String :=
  match t.data with
  | c0 :: c1 :: rest => if c0 = lbrace ∧ c1 = rbrace then String.mk rest else t
  | _ => t

mutual

/-- Proper descendants of an element in document (preorder) order:
`elem.iter()` minus the element itself. -/
def descendants : XmlElem → List XmlElem
  | ⟨_, _, _, _, children⟩ => descendantsL children

/-- Preorder traversal of a forest: each root followed by its proper
descendants, left to right. -/
def descendantsL : List XmlElem → List XmlElem
  | [] => []
  | c :: cs => (c :: descendants c) ++ descendantsL cs

end

/-- One `//tag` selector step: for each element of the current result set,
its proper descendants carrying the resolved tag, in document order. -/
def selectDescTag (t : String) (es : List XmlElem) : List XmlElem :=
  (es.map (fun e => (descendants e).filter (fun d => d.tag = dropEmptyNs t))).flatten

/-- Splits a path on the literal separator `//`: Python `p.split("//")`. -/
def splitSlashes : List Char → List (List Char)
  | [] => [[]]
  | '/' :: '/' :: rest => [] :: splitSlashes rest
  | c :: rest =>
    match splitSlashes rest with
    | [] => [[c]]
    | g :: gs => (c :: g) :: gs

/-- Tokens of a `.//a//b//…` path: everything after the leading `.`. -/
def parseSteps (p : String) : List String :=
  ((splitSlashes p.data).drop 1).map String.mk

/-- Resolves every token of a path left to right, `none` as soon as any
prefix is missing (the tokenizer raises at the first bad token). -/
def resolveSteps (ns : List (String × String)) : List String → Option (List String)
  | [] => some []
  | t :: ts =>
    match resolveToken ns t with
    | some r => (resolveSteps ns ts).map (fun rs => r :: rs)
    | none => none

/-- Embeds `root.findall(p, ns)` for the program's path fragment: compile
(resolve) the path — a missing prefix raises — then run the chain of
descendant selectors from `[root]`. -/
def findall (root : XmlElem) (p : String) (ns : List (String × String)) :
    Except String (List XmlElem) :=
  match resolveSteps ns (parseSteps p) with
  | none => Except.error ("SyntaxError: prefix not found in prefix map: " ++ p)
  | some ts => Except.ok (ts.foldl (fun acc t => selectDescTag t acc) [root])

/-- Embeds `root.find(p, ns)`: first `findall` result, if any. -/
def find (root : XmlElem) (p : String) (ns : List (String × String)) :
    Except String (Option XmlElem) :=
  (findall root p ns).map List.head?

/-! ## Field locator (src/app.py:52-74) -/

/-- Embeds `text_or_none` (src/app.py:52-56): `None`-propagating trimmed
text, with empty trimmed text counting as absent. -/
def text_or_none : Option XmlElem → Option String
  | none => none
  | some e =>
    let t := pyStrip (pyText e)
    if t = "" then none else some t

/-- Embeds `find_first_text` (src/app.py:59-65): first candidate whose
first match has non-empty trimmed text; a raising candidate propagates. -/
def find_first_text (root : XmlElem) (paths : List String) (ns : List (String × String)) :
    Except String (Option String) :=
  match paths with
  | [] => Except.ok none
  | p :: rest => do
    let e ← find root p ns
    match text_or_none e with
    | some t => Except.ok (some t)
    | none => find_first_text root rest ns

/-- Embeds `find_all_text` (src/app.py:68-74): trimmed non-empty texts of
all matches, in match order, empty-text matches omitted. -/
def find_all_text (root : XmlElem) (p : String) (ns : List (String × String)) :
    Except String (List String) :=
  (findall root p ns).map (fun es => es.filterMap (fun e => text_or_none (some e)))

/-! ## Common-fields mapper (src/app.py:123-236) -/

/-- A mapped invoice line: `\x7b"lineId", "description", "quantity"\x7d`. -/
structure LineItem where
  lineId : Option String
  description : Option String
  quantity : Option String
deriving Repr, DecidableEq

/-- The mapper's output record.  Nested dict keys are flattened:
`supplierName` stands for `supplier.name`, `payableAmount` and
`payableAmountCurrency` for the `totals` entries, `meta*` for the `meta`
entries. -/
structure MappedInvoice where
  documentType : String
  invoiceNumber : Option String
  issueDate : Option String
  dueDate : Option String
  currency : Option String
  supplierName : Option String
  customerName : Option String
  payableAmount : Option String
  payableAmountCurrency : Option String
  lines : List LineItem
  metaRootTag : String
  metaNamespacesDetected : List String
  metaMappingNote : String
deriving Repr, DecidableEq

/-- Python `a or b` on optional strings (an empty string is falsy). -/
def pyOrStr (a b : Option String) : Option String :=
  match a with
  | some s => if s ≠ "" then some s else b
  | none => b

/-- Embeds `root.find(p1, ns) or root.find(p2, ns)` (src/app.py:198) with
Python element truthiness: an element with no children is falsy
(`ElementTree.Element.__bool__`), so a childless first match falls
through to the second query. -/
def pyFindOrFind (root : XmlElem) (p1 p2 : String) (ns : List (String × String)) :
    Except String (Option XmlElem) := do
  let a ← find root p1 ns
  match a with
  | some e => if e.children.isEmpty then find root p2 ns else pure (some e)
  | none => find root p2 ns

/-- Embeds src/app.py:203: `find_all_text(root, ".//cac:InvoiceLine//cbc:ID",
ns) or find_all_text(root, ".//InvoiceLine//ID", ns)` — the unqualified
fallback runs exactly when the namespaced lookup returns an empty list. -/
def lookup_line_ids (root : XmlElem) (ns : List (String × String)) :
    Except String (List String) := do
  let a ← find_all_text root ".//cac:InvoiceLine//cbc:ID" ns
  if a.isEmpty then find_all_text root ".//InvoiceLine//ID" ns else pure a

/-- Embeds the line-assembly loop (src/app.py:207-216): positional index up
to `max(len(line_ids), len(line_descs), len(line_qtys), 0)`, out-of-range
indices yielding `None`. -/
def assembleLines (ids ds qs : List String) : List LineItem :=
  let max_len := max (max (max ids.length ds.length) qs.length) 0
  (List.range max_len).map (fun i =>
    { lineId := ids[i]?, description := ds[i]?, quantity := qs[i]? })

/-- Embeds `map_invoice_common` (src/app.py:123-236), lookups in source
order; the first lookup that raises (missing prefix) aborts the mapper,
since the program catches nothing below the parse. -/
def map_invoice_common (root : XmlElem) (ns : List (String × String)) :
    Except String MappedInvoice := do
  let invoice_id ← find_first_text root [".//cbc:ID", ".//ID"] ns
  let issue_date ← find_first_text root
    [".//cbc:IssueDate", ".//IssueDate", ".//cbc:IssueDateTime"] ns
  let due_date ← find_first_text root [".//cbc:DueDate", ".//DueDate"] ns
  let supplier_name ← find_first_text root
    [".//cac:AccountingSupplierParty//cac:Party//cac:PartyName//cbc:Name",
     ".//cac:SellerSupplierParty//cac:Party//cac:PartyName//cbc:Name",
     ".//SellerTradeParty//Name",
     ".//cac:AccountingSupplierParty//cbc:Name"] ns
  let customer_name ← find_first_text root
    [".//cac:AccountingCustomerParty//cac:Party//cac:PartyName//cbc:Name",
     ".//BuyerTradeParty//Name",
     ".//cac:AccountingCustomerParty//cbc:Name"] ns
  let currency ← find_first_text root
    [".//cbc:DocumentCurrencyCode", ".//DocumentCurrencyCode", ".//cbc:TaxCurrencyCode"] ns
  let payable_amount ← find_first_text root
    [".//cbc:PayableAmount", ".//PayableAmount", ".//cbc:TaxInclusiveAmount"] ns
  let pay_elem ← pyFindOrFind root ".//cbc:PayableAmount" ".//PayableAmount" ns
  let payable_amount_currency :=
    match pay_elem with
    | some e => pyOrStr (e.attrib.lookup "currencyID") (e.attrib.lookup "currencyId")
    | none => none
  let line_ids ← lookup_line_ids root ns
  let line_descs ← find_all_text root ".//cac:InvoiceLine//cac:Item//cbc:Description" ns
  let line_qtys ← find_all_text root ".//cac:InvoiceLine//cbc:InvoicedQuantity" ns
  let lines := assembleLines line_ids line_descs line_qtys
  Except.ok
    { documentType := "invoice"
      invoiceNumber := invoice_id
      issueDate := issue_date
      dueDate := due_date
      currency := currency
      supplierName := supplier_name
      customerName := customer_name
      payableAmount := payable_amount
      payableAmountCurrency := pyOrStr payable_amount_currency currency
      lines := lines
      metaRootTag := strip_ns root.tag
      metaNamespacesDetected := ns.map Prod.fst
      metaMappingNote :=
        "Best-effort common-field mapping; for full fidelity use xmlAsJsonFallback." }

/-! ## Spec-side definitions

Definitions in this section transcribe the specification's words (not the
code); they exist to be compared with the embedded code above. -/

/-- The per-candidate result of the single-value lookup: the trimmed text
of the candidate's first match, `none` for no match, empty text, or a
candidate that does not evaluate. -/
def candText (root : XmlElem) (p : String) (ns : List (String × String)) : Option String :=
  match find root p ns with
  | Except.ok e => text_or_none e
  | Except.error _ => none

/-- Decides that a path compiles against the namespace map (its prefixes
all resolve). -/
def pathResolves (ns : List (String × String)) (p : String) : Bool :=
  (resolveSteps ns (parseSteps p)).isSome

/-- Decides that a token's prefix, if any, is `cbc` or `cac` — the only
prefixes the mapper's path catalog uses. -/
def tokOkFor (tok : String) : Bool :=
  match splitAtFirst ':' tok.data with
  | none => true
  | some (pre, _) => String.mk pre == "cbc" || String.mk pre == "cac"

/-- Spec-side grouping: "child-local-tag → projected child (or sequence of
projected children when a tag repeats at that level; order = document
order)", keys in first-occurrence order. -/
def groupSpec : List (String × JVal) → List (String × List JVal)
  | [] => []
  | (k, v) :: rest =>
    (k, v :: (rest.filter (fun q => q.1 = k)).map Prod.snd) ::
      groupSpec (rest.filter (fun q => q.1 ≠ k))
termination_by l => l.length
decreasing_by
  simp only [List.length_cons]
  exact Nat.lt_succ_of_le (List.length_filter_le _ _)

mutual

/-- Spec-side tree projector, transcribing the `ProjectedNode` shape rules
of the specification §3 word for word: a childless, attributeless element
with non-empty trimmed text projects to `\x7b localTag: text \x7d`; otherwise
children are grouped by local tag (a repeated tag becoming a
document-order sequence, singletons collapsed), an `"@attrs"` key is
added when attributes exist, a `"#text"` key is added when the trimmed
text is non-empty and the node has children or attributes, and an element
with neither projects to an empty mapping under its tag.  (The spec's
mapping is unordered; entries are listed as children, `"#text"`,
`"@attrs"`.) -/
def projectSpec : XmlElem → JVal
  | ⟨tag, attrib, text, _, children⟩ =>
    let txt := pyStrip (text.getD "")
    if children.isEmpty ∧ attrib.isEmpty ∧ txt ≠ "" then
      JVal.obj [(strip_ns tag, JVal.str txt)]
    else
      let base :=
        (groupSpec (projKidsSpec children)).map (fun kv =>
          match kv.2 with
          | [v] => (kv.1, v)
          | vs => (kv.1, JVal.arr vs))
      let withText :=
        if txt ≠ "" ∧ (¬children.isEmpty ∨ ¬attrib.isEmpty) then
          base ++ [("#text", JVal.str txt)]
        else base
      let withAttrs :=
        if attrib.isEmpty then withText
        else withText ++ [("@attrs", JVal.obj (attrib.map (fun kv => (kv.1, JVal.str kv.2))))]
      JVal.obj [(strip_ns tag, JVal.obj withAttrs)]

/-- Spec-side projection of a child list to `(localTag, projection)`
pairs, document order. -/
def projKidsSpec : List XmlElem → List (String × JVal)
  | [] => []
  | c :: cs => (strip_ns c.tag, projectSpec c) :: projKidsSpec cs

end

mutual

/-- Decides that every element of the tree has children whose local tags
avoid the reserved output keys `"#text"` and `"@attrs"` — true of every
parser-produced tree, since XML names contain neither `#` nor `@`. -/
def goodKids : XmlElem → Bool
  | ⟨_, _, _, _, children⟩ => goodKidsL children

/-- Forest version of `goodKids`. -/
def goodKidsL : List XmlElem → Bool
  | [] => true
  | c :: cs =>
    (strip_ns c.tag != "#text") && (strip_ns c.tag != "@attrs") && goodKids c && goodKidsL cs

end

/-! ## State-passing forms

The core routines of src/app.py contain no assignment to any element
field (contrast `_indent_xml`, the excluded pretty-printer, which
mutates `text` and `tail`); their explicit-state translations therefore
return the element tree alongside the result, unchanged. -/

/-- State-passing `extract_namespaces`: the scan reads only the raw text,
threading the parsed tree through untouched. -/
def extract_namespaces_run (text : String) (tree : XmlElem) :
    List (String × String) × XmlElem :=
  (extract_namespaces text, tree)

/-- State-passing `xml_to_dict`: the projector only reads `tag`, `attrib`,
`text` and `children`. -/
def xml_to_dict_run (tree : XmlElem) : JVal × XmlElem :=
  (xml_to_dict tree, tree)

/-- State-passing `find_all_text`: path evaluation only reads the tree. -/
def find_all_text_run (tree : XmlElem) (p : String) (ns : List (String × String)) :
    Except String (List String) × XmlElem :=
  (find_all_text tree p ns, tree)

/-- State-passing `map_invoice_common`: all lookups read the tree;
nothing writes it. -/
def map_invoice_common_run (tree : XmlElem) (ns : List (String × String)) :
    Except String MappedInvoice × XmlElem :=
  (map_invoice_common tree ns, tree)

/-! ## Concrete example documents -/

/-- An unqualified `<ID>INV-1</ID>` leaf. -/
def exIdLeaf : XmlElem := ⟨"ID", [], some "INV-1", none, []⟩

/-- The document `<Invoice><ID>INV-1</ID></Invoice>` — no namespace
declarations, so `extract_namespaces` yields the empty map. -/
def exInvoiceNoNs : XmlElem := ⟨"Invoice", [], none, none, [exIdLeaf]⟩

/-- The serialized form of `exInvoiceNoNs`. -/
def exInvoiceNoNsText : String := "<Invoice><ID>INV-1</ID></Invoice>"

/-- A namespace map binding the conventional UBL prefixes. -/
def exNsCbcCac : List (String × String) := [("cbc", "urn:c"), ("cac", "urn:a")]

/-- A namespaced `<cbc:PayableAmount currencyID="EUR">100</cbc:PayableAmount>`
leaf (childless, as in every UBL document). -/
def exPayLeaf : XmlElem :=
  ⟨"\x7burn:c\x7dPayableAmount", [("currencyID", "EUR")], some "100", none, []⟩

/-- A namespaced `<cbc:DocumentCurrencyCode>USD</cbc:DocumentCurrencyCode>`
leaf. -/
def exCurLeaf : XmlElem := ⟨"\x7burn:c\x7dDocumentCurrencyCode", [], some "USD", none, []⟩

/-- A namespaced invoice whose payable amount carries `currencyID="EUR"`
while the document currency is `USD`. -/
def exInvoiceEur : XmlElem :=
  ⟨"\x7burn:c\x7dInvoice", [], none, none, [exCurLeaf, exPayLeaf]⟩

/-- A document with one unqualified `<Name>Acme</Name>` descendant. -/
def exDocAcme : XmlElem :=
  ⟨"Doc", [], none, none, [⟨"Name", [], some "Acme", none, []⟩]⟩

/-- An unqualified invoice line `<InvoiceLine><ID>L1</ID></InvoiceLine>`. -/
def exUqLine : XmlElem := ⟨"InvoiceLine", [], none, none, [⟨"ID", [], some "L1", none, []⟩]⟩

/-- An invoice with only unqualified invoice lines (matching no `cac`/`cbc`
path) under a namespace map that still binds both prefixes. -/
def exInvoiceUqLines : XmlElem := ⟨"Invoice", [], none, none, [exUqLine]⟩

/-- A plain text leaf `<a>hi</a>`. -/
def exLeafPlain : XmlElem := ⟨"a", [], some "hi", none, []⟩

/-- A leaf with the same local tag under a namespace URI, padded text and a
tail: projects identically to `exLeafPlain`. -/
def exLeafQualified : XmlElem := ⟨"\x7burn:x\x7da", [], some " hi ", some "tail", []⟩

/-- Raw text containing a prefixed and a default namespace declaration. -/
def exNsDeclText : String := "<Invoice xmlns:cbc=\"urn:x\" xmlns=\"urn:default\">"

/-- A tree exercising the projector's shape rules: namespaced root tag,
attributes, whitespace-only root text, a repeated child tag, and a child
with both an attribute and text. -/
def exProjTree : XmlElem :=
  ⟨"\x7burn:x\x7dr", [("x", "1")], some "  ", none,
    [⟨"a", [], some "1", none, []⟩,
     ⟨"b", [("y", "2")], some "hi", none, []⟩,
     ⟨"a", [], some "3", none, []⟩]⟩

/-! ## Theorems -/

theorem str_beq_false {p k : String} (h : ¬p = k) : (p == k) = false :=
  beq_eq_false_iff_ne.mpr h

theorem lookup_dictInsert (k v p : String) (l : List (String × String)) :
    (dictInsert k v l).lookup p = if p = k then some v else l.lookup p := by
  induction l with
  | nil =>
    by_cases hp : p = k
    · simp [dictInsert, List.lookup, hp]
    · simp [dictInsert, List.lookup, hp, str_beq_false hp]
  | cons kv rest ih =>
    obtain ⟨k0, v0⟩ := kv
    by_cases hk : k0 = k
    · subst hk
      by_cases hp : p = k0
      · simp [dictInsert, List.lookup, hp]
      · simp [dictInsert, List.lookup, hp, str_beq_false hp]
    · by_cases hp : p = k0
      · subst hp
        simp [dictInsert, List.lookup, hk]
      · simp [dictInsert, List.lookup, hk, hp, str_beq_false hp, ih]

theorem lookup_foldl_dictInsert (ps acc : List (String × String)) (p : String) :
    (ps.foldl (fun a kv => dictInsert kv.1 kv.2 a) acc).lookup p =
      ((ps.reverse.find? (fun kv => kv.1 == p)).map Prod.snd).or (acc.lookup p) := by
  induction ps generalizing acc with
  | nil => simp
  | cons kv ps ih =>
    obtain ⟨k, v⟩ := kv
    simp only [List.foldl_cons, List.reverse_cons, List.find?_append]
    rw [ih]
    cases hf : ps.reverse.find? (fun kv => kv.1 == p) with
    | some q => simp
    | none =>
      simp only [Option.map_none, Option.none_or]
      rw [lookup_dictInsert]
      by_cases hp : p = k
      · subst hp
        simp [List.find?]
      · have hkp : (k == p) = false := by
          simp only [beq_eq_false_iff_ne]
          exact fun h => hp h.symm
        simp [List.find?, hkp, hp]

/-- C6: namespace extraction builds the map by left-to-right insertion of
the prefixed-declaration matches, so a prefix other than the reserved key
`"default"` maps to the URI of its last match (or is absent without a
match); the first default declaration, when present, is stored under
`"default"`; and the spec's concrete example extracts
`cbc ↦ urn:x, default ↦ urn:default`. -/
theorem C6_namespace_map_semantics :
    (∀ (text : String) (p : String), p ≠ "default" →
      (extract_namespaces text).lookup p =
        ((scanNsDecls text.data).reverse.find? (fun kv => kv.1 == p)).map Prod.snd) ∧
    (∀ (text : String) (u : String), scanDefaultNs text.data = some u →
      (extract_namespaces text).lookup "default" = some u) ∧
    ((extract_namespaces exNsDeclText).lookup "cbc" = some "urn:x" ∧
     (extract_namespaces exNsDeclText).lookup "default" = some "urn:default") := by
  refine ⟨?_, ?_, by decide, by decide⟩
  · intro text p hp
    simp only [extract_namespaces]
    cases hd : scanDefaultNs text.data with
    | some u =>
      rw [lookup_dictInsert, if_neg hp, lookup_foldl_dictInsert]
      simp [List.lookup]
    | none =>
      rw [lookup_foldl_dictInsert]
      simp [List.lookup]
  · intro text u hd
    simp only [extract_namespaces]
    rw [hd, lookup_dictInsert, if_pos rfl]

/-- C6 witness: the two general clauses applied to the example text. -/
theorem C6_namespace_map_semantics_witness :
    (extract_namespaces exNsDeclText).lookup "cbc" =
      ((scanNsDecls exNsDeclText.data).reverse.find? (fun kv => kv.1 == "cbc")).map Prod.snd ∧
    (extract_namespaces exNsDeclText).lookup "default" = some "urn:default" :=
  ⟨C6_namespace_map_semantics.1 exNsDeclText "cbc" (by decide),
   C6_namespace_map_semantics.2.1 exNsDeclText "urn:default" (by decide)⟩

/-- C1: the spec states that a single-value candidate path whose namespace
prefix is absent from the map is skipped, so that `[".//cbc:ID", ".//ID"]`
with an empty map resolves `<ID>INV-1</ID>` via the second candidate.  The
code does not: `ElementPath` raises `SyntaxError` while compiling the first
candidate (no exception handler exists on this path), even though the
second candidate alone would succeed — the claimed behavior is the
documented intent (src/app.py:130 "fallback if no ns prefixes",
src/app.py:269), so this is a code bug. -/
theorem C1_missing_prefix_raises_not_skips :
    find_first_text exInvoiceNoNs [".//cbc:ID", ".//ID"] [] =
      Except.error "SyntaxError: prefix not found in prefix map: .//cbc:ID" ∧
    find_first_text exInvoiceNoNs [".//ID"] [] = Except.ok (some "INV-1") :=
  ⟨rfl, rfl⟩

/-- C2: the spec guarantees the mapper returns a complete `MappedInvoice`
for every parseable document, never raising.  On a document with no
namespace declarations (`extract_namespaces` yields the empty map) the
first lookup compiles `.//cbc:ID` and raises `SyntaxError`, so the mapper
aborts with an error instead of returning a record — a code bug by the
program's own comments. -/
theorem C2_mapper_raises_on_prefixless_document :
    extract_namespaces exInvoiceNoNsText = [] ∧
    map_invoice_common exInvoiceNoNs (extract_namespaces exInvoiceNoNsText) =
      Except.error "SyntaxError: prefix not found in prefix map: .//cbc:ID" :=
  ⟨rfl, rfl⟩

/-- C3: the spec states that a `currencyID` attribute on the matched
PayableAmount element takes precedence over the document currency.  In the
code, `root.find(".//cbc:PayableAmount", ns) or root.find(".//PayableAmount",
ns)` tests Python element truthiness, and a childless match is falsy
(`Element.__bool__` is `len(children) != 0`), so the namespaced leaf match
is discarded, the attribute is never read, and the document currency wins:
on a document whose `cbc:PayableAmount` carries `currencyID="EUR"` and
whose `cbc:DocumentCurrencyCode` is `USD`, the mapper emits `USD`. -/
theorem C3_currency_attribute_lost_eval :
    find exInvoiceEur ".//cbc:PayableAmount" exNsCbcCac = Except.ok (some exPayLeaf) ∧
    exPayLeaf.attrib.lookup "currencyID" = some "EUR" ∧
    (map_invoice_common exInvoiceEur exNsCbcCac).map (fun r => r.payableAmountCurrency) =
      Except.ok (some "USD") :=
  ⟨rfl, rfl, rfl⟩

/-- C4: the assembled lines sequence has length equal to the maximum of
the three lookup-result list lengths, and the line at each index takes
each sub-field from the same-index element of the respective list when the
index is within that list, and `none` otherwise. -/
theorem C4_lines_positional_assembly (ids ds qs : List String) :
    (assembleLines ids ds qs).length = max (max ids.length ds.length) qs.length ∧
    ∀ i : Nat, i < (assembleLines ids ds qs).length →
      (assembleLines ids ds qs)[i]? = some
        { lineId := if h : i < ids.length then some ids[i] else none
          description := if h : i < ds.length then some ds[i] else none
          quantity := if h : i < qs.length then some qs[i] else none } := by
  constructor
  · simp [assembleLines]
  · intro i hi
    simp only [assembleLines, List.length_map, List.length_range] at hi
    simp only [assembleLines, List.getElem?_map, List.getElem?_range, hi, if_pos,
      Option.map_some]
    refine congrArg some ?_
    dsimp only
    have f1 : ids[i]? = if h : i < ids.length then some ids[i] else none := by
      split
      · exact List.getElem?_eq_getElem (by assumption)
      · exact List.getElem?_eq_none (by omega)
    have f2 : ds[i]? = if h : i < ds.length then some ds[i] else none := by
      split
      · exact List.getElem?_eq_getElem (by assumption)
      · exact List.getElem?_eq_none (by omega)
    have f3 : qs[i]? = if h : i < qs.length then some qs[i] else none := by
      split
      · exact List.getElem?_eq_getElem (by assumption)
      · exact List.getElem?_eq_none (by omega)
    rw [f1, f2, f3]

/-- C4 witness: the assembly evaluated at concrete unequal-length lists. -/
theorem C4_lines_positional_assembly_witness :
    (assembleLines ["1", "2", "3"] ["d1"] []).length = 3 ∧
    (assembleLines ["1", "2", "3"] ["d1"] [])[1]? =
      some { lineId := some "2", description := none, quantity := none } := by
  refine ⟨(C4_lines_positional_assembly ["1", "2", "3"] ["d1"] []).1, ?_⟩
  have h := (C4_lines_positional_assembly ["1", "2", "3"] ["d1"] []).2 1 (by decide)
  simpa using h

theorem resolveToken_isSome_of_tokOk (ns : List (String × String)) (tok : String)
    (hc : (ns.lookup "cbc").isSome = true) (ha : (ns.lookup "cac").isSome = true)
    (ht : tokOkFor tok = true) : (resolveToken ns tok).isSome = true := by
  cases htd : tok.data with
  | nil => simp [resolveToken, htd]
  | cons t0 ts =>
    by_cases hb : t0 = lbrace
    · simp [resolveToken, htd, hb]
    · simp only [resolveToken, htd, if_neg hb]
      cases hsp : splitAtFirst ':' (t0 :: ts) with
      | none =>
        cases hl : ns.lookup "" with
        | none => simp [hl]
        | some uri => by_cases hu : uri = "" <;> simp [hl, hu]
      | some pr =>
        obtain ⟨pre, loc⟩ := pr
        have ht' : String.mk pre = "cbc" ∨ String.mk pre = "cac" := by
          simp only [tokOkFor, htd, hsp, Bool.or_eq_true, beq_iff_eq] at ht
          exact ht
        cases ht' with
        | inl h =>
          obtain ⟨u, hu⟩ := Option.isSome_iff_exists.mp hc
          simp [h, hu]
        | inr h =>
          obtain ⟨u, hu⟩ := Option.isSome_iff_exists.mp ha
          simp [h, hu]

theorem resolveSteps_isSome (ns : List (String × String)) (steps : List String)
    (h : ∀ t ∈ steps, (resolveToken ns t).isSome = true) :
    (resolveSteps ns steps).isSome = true := by
  induction steps with
  | nil => simp [resolveSteps]
  | cons t ts ih =>
    obtain ⟨x, hx⟩ := Option.isSome_iff_exists.mp (h t (by simp))
    obtain ⟨ys, hys⟩ := Option.isSome_iff_exists.mp (ih (fun q hq => h q (by simp [hq])))
    simp [resolveSteps, hx, hys]

theorem pathResolves_of_catalog (ns : List (String × String)) (p : String)
    (hc : (ns.lookup "cbc").isSome = true) (ha : (ns.lookup "cac").isSome = true)
    (hp : (parseSteps p).all tokOkFor = true) : pathResolves ns p = true := by
  unfold pathResolves
  exact resolveSteps_isSome ns (parseSteps p) (fun t htm =>
    resolveToken_isSome_of_tokOk ns t hc ha (List.all_eq_true.mp hp t htm))

theorem findall_ok (root : XmlElem) (p : String) (ns : List (String × String))
    (h : pathResolves ns p = true) : ∃ es, findall root p ns = Except.ok es := by
  unfold pathResolves at h
  obtain ⟨ts, hts⟩ := Option.isSome_iff_exists.mp h
  exact ⟨ts.foldl (fun acc t => selectDescTag t acc) [root], by simp [findall, hts]⟩

theorem find_ok (root : XmlElem) (p : String) (ns : List (String × String))
    (h : pathResolves ns p = true) : ∃ e, find root p ns = Except.ok e := by
  obtain ⟨es, hes⟩ := findall_ok root p ns h
  exact ⟨es.head?, by simp [find, hes, Except.map]⟩

theorem find_all_text_ok (root : XmlElem) (p : String) (ns : List (String × String))
    (h : pathResolves ns p = true) : ∃ l, find_all_text root p ns = Except.ok l := by
  obtain ⟨es, hes⟩ := findall_ok root p ns h
  exact ⟨es.filterMap (fun e => text_or_none (some e)), by simp [find_all_text, hes, Except.map]⟩

theorem find_first_text_eq_findSome (root : XmlElem) (paths : List String)
    (ns : List (String × String)) (h : ∀ p ∈ paths, pathResolves ns p = true) :
    find_first_text root paths ns =
      Except.ok (paths.findSome? (fun p => candText root p ns)) := by
  induction paths with
  | nil => simp [find_first_text]
  | cons p rest ih =>
    obtain ⟨e, he⟩ := find_ok root p ns (h p (by simp))
    have hcand : candText root p ns = text_or_none e := by simp [candText, he]
    simp only [find_first_text, he, List.findSome?_cons, hcand]
    cases hte : text_or_none e with
    | some t => simp [Bind.bind, Except.bind, hte]
    | none =>
      simp only [Bind.bind, Except.bind, hte]
      exact ih (fun q hq => h q (by simp [hq]))

/-- C7 counterexample: the claim quantifies over every namespace map, but
with an empty map the candidate `.//x:Name` raises instead of being
treated as yielding nothing — the lookup returns an error, not the text
of the matching second candidate (and not null). -/
theorem C7_counterexample_unresolved_prefix_raises :
    find_first_text exDocAcme [".//x:Name", ".//Name"] [] =
      Except.error "SyntaxError: prefix not found in prefix map: .//x:Name" ∧
    find_first_text exDocAcme [".//Name"] [] = Except.ok (some "Acme") :=
  ⟨rfl, rfl⟩

/-- C7 (amended: provided every candidate path's prefixes resolve in the
namespace map): the single-value lookup returns the first candidate whose
first match has non-empty trimmed text, candidates evaluated in list
order, a matched element with empty or whitespace-only text counting as
absent; the result is null exactly when every candidate yields no
non-empty trimmed text. -/
theorem C7_first_nonempty_trimmed_candidate (root : XmlElem) (paths : List String)
    (ns : List (String × String)) (h : ∀ p ∈ paths, pathResolves ns p = true) :
    find_first_text root paths ns =
      Except.ok (paths.findSome? (fun p => candText root p ns)) ∧
    (find_first_text root paths ns = Except.ok none ↔
      ∀ p ∈ paths, candText root p ns = none) := by
  have h1 := find_first_text_eq_findSome root paths ns h
  refine ⟨h1, ?_⟩
  rw [h1]
  constructor
  · intro h2
    have h3 : paths.findSome? (fun p => candText root p ns) = none := by
      injection h2
    exact List.findSome?_eq_none_iff.mp h3
  · intro h2
    rw [List.findSome?_eq_none_iff.mpr h2]

/-- C7 witness: the amended lookup rule applied to a concrete document,
candidate list and namespace map. -/
theorem C7_first_nonempty_trimmed_candidate_witness :
    find_first_text exInvoiceNoNs [".//cbc:ID", ".//ID"] exNsCbcCac =
      Except.ok (([".//cbc:ID", ".//ID"] : List String).findSome?
        (fun p => candText exInvoiceNoNs p exNsCbcCac)) :=
  (C7_first_nonempty_trimmed_candidate exInvoiceNoNs [".//cbc:ID", ".//ID"] exNsCbcCac
    (by decide)).1

theorem lookup_line_ids_of_nonempty (r : XmlElem) (m : List (String × String))
    (l : List String) (h : find_all_text r ".//cac:InvoiceLine//cbc:ID" m = Except.ok l)
    (hne : l ≠ []) : lookup_line_ids r m = Except.ok l := by
  simp [lookup_line_ids, h, Bind.bind, Except.bind, List.isEmpty_iff, hne, pure, Except.pure]

theorem map_invoice_common_lines (root : XmlElem) (ns : List (String × String))
    (ids ds qs : List String)
    (hc : (ns.lookup "cbc").isSome = true) (ha : (ns.lookup "cac").isSome = true)
    (hl : lookup_line_ids root ns = Except.ok ids)
    (hd : find_all_text root ".//cac:InvoiceLine//cac:Item//cbc:Description" ns = Except.ok ds)
    (hq : find_all_text root ".//cac:InvoiceLine//cbc:InvoicedQuantity" ns = Except.ok qs) :
    ∃ inv, map_invoice_common root ns = Except.ok inv ∧
      inv.lines = assembleLines ids ds qs := by
  have H : ∀ paths : List String,
      (paths.all (fun p => (parseSteps p).all tokOkFor)) = true →
      ∃ o, find_first_text root paths ns = Except.ok o := by
    intro paths hall
    exact ⟨_, find_first_text_eq_findSome root paths ns (fun p hp =>
      pathResolves_of_catalog ns p hc ha (List.all_eq_true.mp hall p hp))⟩
  obtain ⟨o1, e1⟩ := H [".//cbc:ID", ".//ID"] (by decide)
  obtain ⟨o2, e2⟩ := H [".//cbc:IssueDate", ".//IssueDate", ".//cbc:IssueDateTime"] (by decide)
  obtain ⟨o3, e3⟩ := H [".//cbc:DueDate", ".//DueDate"] (by decide)
  obtain ⟨o4, e4⟩ := H
    [".//cac:AccountingSupplierParty//cac:Party//cac:PartyName//cbc:Name",
     ".//cac:SellerSupplierParty//cac:Party//cac:PartyName//cbc:Name",
     ".//SellerTradeParty//Name",
     ".//cac:AccountingSupplierParty//cbc:Name"] (by decide)
  obtain ⟨o5, e5⟩ := H
    [".//cac:AccountingCustomerParty//cac:Party//cac:PartyName//cbc:Name",
     ".//BuyerTradeParty//Name",
     ".//cac:AccountingCustomerParty//cbc:Name"] (by decide)
  obtain ⟨o6, e6⟩ := H
    [".//cbc:DocumentCurrencyCode", ".//DocumentCurrencyCode", ".//cbc:TaxCurrencyCode"]
    (by decide)
  obtain ⟨o7, e7⟩ := H
    [".//cbc:PayableAmount", ".//PayableAmount", ".//cbc:TaxInclusiveAmount"] (by decide)
  have hp1 : pathResolves ns ".//cbc:PayableAmount" = true :=
    pathResolves_of_catalog ns _ hc ha (by decide)
  have hp2 : pathResolves ns ".//PayableAmount" = true :=
    pathResolves_of_catalog ns _ hc ha (by decide)
  obtain ⟨a1, f1⟩ := find_ok root ".//cbc:PayableAmount" ns hp1
  obtain ⟨a2, f2⟩ := find_ok root ".//PayableAmount" ns hp2
  have e8 : ∃ pe, pyFindOrFind root ".//cbc:PayableAmount" ".//PayableAmount" ns =
      Except.ok pe := by
    cases a1 with
    | none => exact ⟨a2, by simp [pyFindOrFind, f1, f2, Bind.bind, Except.bind]⟩
    | some e =>
      by_cases hce : e.children.isEmpty
      · exact ⟨a2, by simp [pyFindOrFind, f1, f2, Bind.bind, Except.bind, hce]⟩
      · exact ⟨some e, by simp [pyFindOrFind, f1, Bind.bind, Except.bind, hce, pure, Except.pure]⟩
  obtain ⟨pe, e8⟩ := e8
  have key : map_invoice_common root ns = Except.ok
      { documentType := "invoice"
        invoiceNumber := o1
        issueDate := o2
        dueDate := o3
        currency := o6
        supplierName := o4
        customerName := o5
        payableAmount := o7
        payableAmountCurrency := pyOrStr
          (match pe with
           | some e => pyOrStr (e.attrib.lookup "currencyID") (e.attrib.lookup "currencyId")
           | none => none) o6
        lines := assembleLines ids ds qs
        metaRootTag := strip_ns root.tag
        metaNamespacesDetected := ns.map Prod.fst
        metaMappingNote :=
          "Best-effort common-field mapping; for full fidelity use xmlAsJsonFallback." } := by
    simp only [map_invoice_common, Bind.bind, Except.bind, e1, e2, e3, e4, e5, e6, e7, e8,
      hl, hd, hq]
    cases pe <;> rfl
  exact ⟨_, key, rfl⟩

/-- C10: the line-id lookup falls back to the unqualified
`.//InvoiceLine//ID` exactly when the namespaced lookup returns an empty
list, while descriptions and quantities have no unqualified fallback, so
a document matching no `cac`/`cbc` path but containing unqualified
invoice lines (under a map that still resolves both prefixes) yields
lines with non-null `lineId` and null `description` and `quantity`. -/
theorem C10_unqualified_lineid_fallback (root : XmlElem) (ns : List (String × String))
    (ids : List String)
    (hc : (ns.lookup "cbc").isSome = true) (ha : (ns.lookup "cac").isSome = true)
    (h1 : find_all_text root ".//cac:InvoiceLine//cbc:ID" ns = Except.ok [])
    (h2 : find_all_text root ".//cac:InvoiceLine//cac:Item//cbc:Description" ns = Except.ok [])
    (h3 : find_all_text root ".//cac:InvoiceLine//cbc:InvoicedQuantity" ns = Except.ok [])
    (h4 : find_all_text root ".//InvoiceLine//ID" ns = Except.ok ids)
    (h5 : ids ≠ []) :
    (∀ (r : XmlElem) (m : List (String × String)) (l : List String),
      find_all_text r ".//cac:InvoiceLine//cbc:ID" m = Except.ok l → l ≠ [] →
      lookup_line_ids r m = Except.ok l) ∧
    lookup_line_ids root ns = Except.ok ids ∧
    ∃ inv, map_invoice_common root ns = Except.ok inv ∧
      inv.lines.length = ids.length ∧
      ∀ li ∈ inv.lines, li.lineId ≠ none ∧ li.description = none ∧ li.quantity = none := by
  have hl : lookup_line_ids root ns = Except.ok ids := by
    simp [lookup_line_ids, h1, h4, Bind.bind, Except.bind]
  obtain ⟨inv, hinv, hlines⟩ := map_invoice_common_lines root ns ids [] [] hc ha hl h2 h3
  refine ⟨lookup_line_ids_of_nonempty, hl, inv, hinv, ?_, ?_⟩
  · simp [hlines, assembleLines]
  · intro li hli
    rw [hlines] at hli
    simp only [assembleLines, List.mem_map, List.mem_range] at hli
    obtain ⟨i, hi, hli⟩ := hli
    have hi' : i < ids.length := by simpa using hi
    subst hli
    refine ⟨?_, by simp, by simp⟩
    simp [List.getElem?_eq_getElem hi']

/-- C10 witness: a concrete invoice with one unqualified line under a map
binding both prefixes. -/
theorem C10_unqualified_lineid_fallback_witness :
    lookup_line_ids exInvoiceUqLines exNsCbcCac = Except.ok ["L1"] ∧
    ∃ inv, map_invoice_common exInvoiceUqLines exNsCbcCac = Except.ok inv ∧
      inv.lines.length = (["L1"] : List String).length ∧
      ∀ li ∈ inv.lines, li.lineId ≠ none ∧ li.description = none ∧ li.quantity = none :=
  (C10_unqualified_lineid_fallback exInvoiceUqLines exNsCbcCac ["L1"]
    (by decide) (by decide) rfl rfl rfl rfl (by decide)).2

theorem xml_to_dict_leaf (t : String) (tx tl : Option String)
    (h : pyStrip (tx.getD "") ≠ "") :
    xml_to_dict ⟨t, [], tx, tl, []⟩ =
      JVal.obj [(strip_ns t, JVal.str (pyStrip (tx.getD "")))] := by
  simp [xml_to_dict, wrapNode, projKids, groupPairs, h]

/-- C8 counterexample: two distinct well-formed trees — a plain `<a>hi</a>`
leaf and the same leaf in a namespace with padded text and a tail — share
one projection, so the projection is not injective and the original
document is not recoverable from it. -/
theorem C8_counterexample_projection_collision :
    exLeafPlain ≠ exLeafQualified ∧
    xml_to_dict exLeafPlain = xml_to_dict exLeafQualified := by
  refine ⟨fun h => absurd (congrArg XmlElem.tag h) (by decide), rfl⟩

/-- C8 (amended: the projection is lossy, not lossless): for leaf elements
only the stripped local tag and the trimmed text survive — two childless,
attributeless elements with non-empty trimmed text project equally exactly
when their stripped tags and trimmed texts agree, so trees differing only
in namespace URI, tail text or surrounding whitespace collide. -/
theorem C8_projection_lossy_leaf_characterization (e1 e2 : XmlElem)
    (h1c : e1.children = []) (h1a : e1.attrib = []) (h1t : pyStrip (pyText e1) ≠ "")
    (h2c : e2.children = []) (h2a : e2.attrib = []) (h2t : pyStrip (pyText e2) ≠ "") :
    xml_to_dict e1 = xml_to_dict e2 ↔
      (strip_ns e1.tag = strip_ns e2.tag ∧ pyStrip (pyText e1) = pyStrip (pyText e2)) := by
  obtain ⟨t1, a1, x1, l1, c1⟩ := e1
  obtain ⟨t2, a2, x2, l2, c2⟩ := e2
  dsimp only at h1c h1a h1t h2c h2a h2t ⊢
  subst h1c h1a h2c h2a
  rw [xml_to_dict_leaf t1 x1 l1 (by simpa [pyText] using h1t),
    xml_to_dict_leaf t2 x2 l2 (by simpa [pyText] using h2t)]
  simp [pyText]

/-- C8 witness: the leaf characterization applied to the colliding pair. -/
theorem C8_projection_lossy_leaf_characterization_witness :
    pyStrip (pyText exLeafPlain) ≠ "" ∧
    (xml_to_dict exLeafPlain = xml_to_dict exLeafQualified ↔
      (strip_ns exLeafPlain.tag = strip_ns exLeafQualified.tag ∧
       pyStrip (pyText exLeafPlain) = pyStrip (pyText exLeafQualified))) :=
  ⟨by decide,
   C8_projection_lossy_leaf_characterization exLeafPlain exLeafQualified
     rfl rfl (by decide) rfl rfl (by decide)⟩

/-- C9: the core transformations — namespace extraction, the generic tree
projector, the multi-value locator and the common-fields mapper — leave
the element tree unchanged: their explicit-state translations return the
input tree as the output state.  (The underlying Python performs no
assignment to any element's tag, attributes, text, tail or children;
only the excluded pretty-printer `_indent_xml` mutates the tree.) -/
theorem C9_core_preserves_tree (tree : XmlElem) (ns : List (String × String))
    (text p : String) :
    (extract_namespaces_run text tree).2 = tree ∧
    (xml_to_dict_run tree).2 = tree ∧
    (find_all_text_run tree p ns).2 = tree ∧
    (map_invoice_common_run tree ns).2 = tree :=
  ⟨rfl, rfl, rfl, rfl⟩

theorem xmlElem_ind (P : XmlElem → Prop)
    (step : ∀ e : XmlElem, (∀ c ∈ e.children, P c) → P e) (e : XmlElem) : P e := by
  have key : ∀ n (e : XmlElem), sizeOf e ≤ n → P e := by
    intro n
    induction n with
    | zero =>
      intro e he
      obtain ⟨t, a, x, tl, cs⟩ := e
      simp only [XmlElem.mk.sizeOf_spec] at he
      omega
    | succ n ih =>
      intro e he
      refine step e (fun c hc => ih c ?_)
      have hlt := List.sizeOf_lt_of_mem hc
      obtain ⟨t, a, x, tl, cs⟩ := e
      dsimp only at hlt
      simp only [XmlElem.mk.sizeOf_spec] at he
      omega
  exact key (sizeOf e) e (Nat.le_refl _)

theorem lookup_append {β : Type} (l1 l2 : List (String × β)) (x : String) :
    (l1 ++ l2).lookup x = (l1.lookup x).or (l2.lookup x) := by
  induction l1 with
  | nil => simp [List.lookup]
  | cons kv rest ih =>
    obtain ⟨k, v⟩ := kv
    by_cases hx : x = k
    · simp [List.lookup, hx]
    · simp [List.lookup, str_beq_false hx, ih]

theorem lookup_map_keyed {β γ : Type} (l : List (String × β)) (g : String × β → γ)
    (x : String) :
    ((l.map (fun kv => (kv.1, g kv))).lookup x).isNone = (l.lookup x).isNone := by
  induction l with
  | nil => simp [List.lookup]
  | cons kv rest ih =>
    obtain ⟨k, v⟩ := kv
    by_cases hx : x = k
    · simp [List.lookup, hx]
    · simp [List.lookup, str_beq_false hx, ih]

theorem lookup_eq_none_iff_not_mem {β : Type} (l : List (String × β)) (x : String) :
    l.lookup x = none ↔ x ∉ l.map Prod.fst := by
  induction l with
  | nil => simp [List.lookup]
  | cons kv rest ih =>
    obtain ⟨k, v⟩ := kv
    by_cases hx : x = k
    · simp [List.lookup, hx]
    · simp [List.lookup, str_beq_false hx, ih, hx]

theorem dictAppend_not_mem (k : String) (v : JVal) (l : List (String × List JVal))
    (h : l.lookup k = none) : dictAppend k v l = l ++ [(k, [v])] := by
  induction l with
  | nil => simp [dictAppend]
  | cons kv rest ih =>
    obtain ⟨k0, vs⟩ := kv
    by_cases h0 : k = k0
    · simp [List.lookup, h0] at h
    · have ht : rest.lookup k = none := by
        simpa [List.lookup, str_beq_false h0] using h
      have h0' : ¬k0 = k := fun hh => h0 hh.symm
      simp [dictAppend, h0', ih ht]

theorem dictAppend_mem (k : String) (v : JVal) (l : List (String × List JVal))
    (hnd : (l.map Prod.fst).Nodup) (h : (l.lookup k).isSome = true) :
    dictAppend k v l =
      l.map (fun kv => (kv.1, if kv.1 = k then kv.2 ++ [v] else kv.2)) := by
  induction l with
  | nil => simp [List.lookup] at h
  | cons kv rest ih =>
    obtain ⟨k0, vs⟩ := kv
    by_cases h0 : k0 = k
    · subst h0
      simp only [dictAppend, if_pos rfl, List.map_cons, if_pos rfl]
      have hmem : k0 ∉ rest.map Prod.fst := (List.nodup_cons.mp (by simpa using hnd)).1
      have hrest : rest.map (fun kv => (kv.1, if kv.1 = k0 then kv.2 ++ [v] else kv.2)) =
          rest := by
        conv_rhs => rw [← List.map_id rest]
        refine List.map_congr_left (fun kv hkv => ?_)
        have : kv.1 ≠ k0 := fun hh => hmem (hh ▸ List.mem_map_of_mem Prod.fst hkv)
        simp [this]
      simp [hrest]
    · have h' : (rest.lookup k).isSome = true := by
        simpa [List.lookup, str_beq_false (fun hh : k = k0 => h0 hh.symm)] using h
      have hnd' : (rest.map Prod.fst).Nodup := (List.nodup_cons.mp (by simpa using hnd)).2
      simp [dictAppend, h0, ih hnd' h']

theorem objInsert_not_mem (k : String) (v : JVal) (l : List (String × JVal))
    (h : l.lookup k = none) : objInsert k v l = l ++ [(k, v)] := by
  induction l with
  | nil => simp [objInsert]
  | cons kv rest ih =>
    obtain ⟨k0, v0⟩ := kv
    by_cases h0 : k = k0
    · simp [List.lookup, h0] at h
    · have ht : rest.lookup k = none := by
        simpa [List.lookup, str_beq_false h0] using h
      have h0' : ¬k0 = k := fun hh => h0 hh.symm
      simp [objInsert, h0', ih ht]

theorem foldl_dictAppend_eq (ps : List (String × JVal)) :
    ∀ acc : List (String × List JVal), (acc.map Prod.fst).Nodup →
    ps.foldl (fun a kv => dictAppend kv.1 kv.2 a) acc =
      acc.map (fun kv => (kv.1, kv.2 ++ (ps.filter (fun q => q.1 = kv.1)).map Prod.snd))
        ++ groupSpec (ps.filter (fun q => (acc.lookup q.1).isNone)) := by
  induction ps with
  | nil =>
    intro acc hnd
    simp [groupSpec]
  | cons kv ps ih =>
    obtain ⟨k, v⟩ := kv
    intro acc hnd
    simp only [List.foldl_cons]
    by_cases hk : (acc.lookup k).isSome = true
    · rw [dictAppend_mem k v acc hnd hk]
      have hkeys : ((acc.map (fun kv => (kv.1, if kv.1 = k then kv.2 ++ [v] else kv.2))).map
          Prod.fst) = acc.map Prod.fst := by
        rw [List.map_map]
        exact List.map_congr_left (fun kv _ => rfl)
      rw [ih _ (by rw [hkeys]; exact hnd)]
      have hknone : (acc.lookup k).isNone = false := by
        cases hlk : acc.lookup k
        · rw [hlk] at hk; simp at hk
        · rfl
      congr 1
      · rw [List.map_map]
        refine List.map_congr_left (fun kv hkv => ?_)
        simp only [Function.comp_apply]
        by_cases hkk : kv.1 = k
        · have hkk' : k = kv.1 := hkk.symm
          rw [if_pos hkk, List.filter_cons, if_pos (by simp [hkk'])]
          simp [List.append_assoc]
        · have hkk' : ¬k = kv.1 := fun hh => hkk hh.symm
          rw [if_neg hkk, List.filter_cons, if_neg (by simp [hkk'])]
      · have hfil : ps.filter (fun q =>
            (((acc.map (fun kv => (kv.1, if kv.1 = k then kv.2 ++ [v] else kv.2))).lookup
              q.1)).isNone) = ps.filter (fun q => (acc.lookup q.1).isNone) :=
          List.filter_congr (fun q _ =>
            lookup_map_keyed acc (fun kv => if kv.1 = k then kv.2 ++ [v] else kv.2) q.1)
        rw [hfil, List.filter_cons]
        simp [hknone]
    · have hkn : acc.lookup k = none := by
        cases hlk : acc.lookup k
        · rfl
        · rw [hlk] at hk; simp at hk
      rw [dictAppend_not_mem k v acc hkn]
      have hknotmem : k ∉ acc.map Prod.fst := (lookup_eq_none_iff_not_mem acc k).mp hkn
      have hnd2 : ((acc ++ [(k, [v])]).map Prod.fst).Nodup := by
        rw [List.map_append]
        refine List.Nodup.append hnd (List.nodup_singleton k) ?_
        intro a ha hamem
        simp only [List.map_cons, List.map_nil, List.mem_singleton] at hamem
        exact hknotmem (hamem ▸ ha)
      rw [ih _ hnd2]
      rw [List.map_append]
      have hsingle : ([(k, [v])] : List (String × List JVal)).map
          (fun kv => (kv.1, kv.2 ++ (ps.filter (fun q => q.1 = kv.1)).map Prod.snd)) =
          [(k, [v] ++ (ps.filter (fun q => q.1 = k)).map Prod.snd)] := by
        simp
      rw [hsingle]
      have hmapacc : acc.map (fun kv =>
          (kv.1, kv.2 ++ ((((k, v) :: ps)).filter (fun q => q.1 = kv.1)).map Prod.snd)) =
          acc.map (fun kv =>
            (kv.1, kv.2 ++ (ps.filter (fun q => q.1 = kv.1)).map Prod.snd)) := by
        refine List.map_congr_left (fun kv hkv => ?_)
        have hne : ¬k = kv.1 := by
          intro hh
          exact hknotmem (hh ▸ List.mem_map_of_mem Prod.fst hkv)
        simp [List.filter_cons, hne]
      have hf1 : (ps.filter (fun q => (acc.lookup q.1).isNone)).filter
          (fun q => q.1 = k) = ps.filter (fun q => q.1 = k) := by
        rw [List.filter_filter]
        refine List.filter_congr (fun q hq => ?_)
        by_cases hqk : q.1 = k
        · simp [hqk, hkn]
        · simp [hqk]
      have hf2 : (ps.filter (fun q => (acc.lookup q.1).isNone)).filter
          (fun q => q.1 ≠ k) =
          ps.filter (fun q => ((acc ++ [(k, [v])]).lookup q.1).isNone) := by
        rw [List.filter_filter]
        refine List.filter_congr (fun q hq => ?_)
        rw [lookup_append]
        by_cases hqk : q.1 = k
        · simp [hqk, hkn, List.lookup]
        · cases hacc : acc.lookup q.1 <;>
            simp [List.lookup, str_beq_false hqk, hacc, hqk]
      have hgs : groupSpec (((k, v) :: ps).filter (fun q => (acc.lookup q.1).isNone)) =
          (k, v :: (ps.filter (fun q => q.1 = k)).map Prod.snd) ::
            groupSpec (ps.filter (fun q =>
              ((acc ++ [(k, [v])]).lookup q.1).isNone)) := by
        rw [List.filter_cons, if_pos (by rw [hkn]; rfl), groupSpec, hf1, hf2]
      rw [hgs]
      rw [hmapacc, List.append_assoc]
      rfl

theorem groupPairs_eq_groupSpec (ps : List (String × JVal)) :
    groupPairs ps = groupSpec ps := by
  have h := foldl_dictAppend_eq ps [] (by simp)
  have hfil : ps.filter (fun q => ((List.lookup q.1 ([] : List (String × List JVal)))).isNone)
      = ps := by
    refine List.filter_eq_self.mpr (fun q _ => ?_)
    rfl
  simpa [groupPairs, hfil] using h

theorem groupSpec_keys_subset (ps : List (String × JVal)) :
    ∀ key, key ∈ (groupSpec ps).map Prod.fst → key ∈ ps.map Prod.fst := by
  have H : ∀ n (ps : List (String × JVal)), ps.length ≤ n →
      ∀ key, key ∈ (groupSpec ps).map Prod.fst → key ∈ ps.map Prod.fst := by
    intro n
    induction n with
    | zero =>
      intro ps hlen key hkey
      cases ps with
      | nil => simp [groupSpec] at hkey
      | cons q rest => simp at hlen
    | succ n ih =>
      intro ps hlen key hkey
      cases ps with
      | nil => simp [groupSpec] at hkey
      | cons q rest =>
        obtain ⟨qk, qv⟩ := q
        rw [groupSpec] at hkey
        simp only [List.map_cons, List.mem_cons] at hkey
        cases hkey with
        | inl h => simp [h]
        | inr h =>
          have hlen2 : (rest.filter (fun q => q.1 ≠ qk)).length ≤ n := by
            have := List.length_filter_le (fun q : String × JVal => decide (q.1 ≠ qk)) rest
            simp only [List.length_cons] at hlen
            omega
          have hmem := ih _ hlen2 key h
          obtain ⟨q2, hq2, hq2f⟩ := List.mem_map.mp hmem
          have : q2 ∈ rest := List.mem_of_mem_filter hq2
          exact List.mem_cons_of_mem _ (hq2f ▸ List.mem_map_of_mem Prod.fst this)
  exact H ps.length ps (Nat.le_refl _)

theorem groupSpec_isEmpty (ps : List (String × JVal)) :
    (groupSpec ps).isEmpty = ps.isEmpty := by
  cases ps with
  | nil => simp [groupSpec]
  | cons q rest =>
    obtain ⟨qk, qv⟩ := q
    rw [groupSpec]
    rfl

theorem projKids_eq_map (cs : List XmlElem) :
    projKids cs = cs.map (fun c => (strip_ns c.tag, xml_to_dict c)) := by
  induction cs with
  | nil => rfl
  | cons c rest ih => simp [projKids, ih]

theorem projKidsSpec_eq_map (cs : List XmlElem) :
    projKidsSpec cs = cs.map (fun c => (strip_ns c.tag, projectSpec c)) := by
  induction cs with
  | nil => rfl
  | cons c rest ih => simp [projKidsSpec, ih]

theorem projKidsSpec_isEmpty (cs : List XmlElem) :
    (projKidsSpec cs).isEmpty = cs.isEmpty := by
  cases cs <;> rfl

theorem goodKidsL_mem (cs : List XmlElem) (h : goodKidsL cs = true) :
    ∀ c ∈ cs, (strip_ns c.tag ≠ "#text" ∧ strip_ns c.tag ≠ "@attrs") ∧
      goodKids c = true := by
  induction cs with
  | nil => intro c hc; simp at hc
  | cons c0 rest ih =>
    simp only [goodKidsL, Bool.and_eq_true, bne_iff_ne, ne_eq] at h
    intro c hc
    cases hc with
    | head => exact ⟨⟨h.1.1.1, h.1.1.2⟩, h.1.2⟩
    | tail _ hmem => exact ih h.2 c hmem

theorem collapse_fst (kv : String × List JVal) :
    ((match kv.2 with
      | [v] => (kv.1, v)
      | vs => (kv.1, JVal.arr vs)) : String × JVal).1 = kv.1 := by
  obtain ⟨k0, vs⟩ := kv
  match vs with
  | [] => rfl
  | [v] => rfl
  | v1 :: v2 :: rest => rfl

theorem map_isEmpty {α β : Type} (l : List α) (f : α → β) :
    (l.map f).isEmpty = l.isEmpty := by
  cases l <;> rfl

theorem append_singleton_isEmpty {α : Type} (l : List α) (x : α) :
    (l ++ [x]).isEmpty = false := by
  cases l <;> rfl

theorem wrapNode_spec (t : String) (a : List (String × String)) (txt : String)
    (kids : List (String × JVal))
    (hkeys : ∀ key ∈ kids.map Prod.fst, key ≠ "#text" ∧ key ≠ "@attrs") :
    wrapNode t a txt kids =
      if kids.isEmpty ∧ a.isEmpty ∧ txt ≠ "" then
        JVal.obj [(strip_ns t, JVal.str txt)]
      else
        let base := (groupSpec kids).map (fun kv =>
          match kv.2 with
          | [v] => (kv.1, v)
          | vs => (kv.1, JVal.arr vs));
        let withText := if txt ≠ "" ∧ (¬kids.isEmpty ∨ ¬a.isEmpty) then
            base ++ [("#text", JVal.str txt)] else base;
        let withAttrs := if a.isEmpty then withText
          else withText ++
            [("@attrs", JVal.obj (a.map (fun kv => (kv.1, JVal.str kv.2))))];
        JVal.obj [(strip_ns t, JVal.obj withAttrs)] := by
  have hgp := groupPairs_eq_groupSpec kids
  set base := (groupSpec kids).map (fun kv : String × List JVal =>
    match kv.2 with
    | [v] => (kv.1, v)
    | vs => (kv.1, JVal.arr vs)) with hbase
  have hbk : ∀ key ∈ base.map Prod.fst, key ∈ kids.map Prod.fst := by
    intro key hkey
    rw [hbase, List.map_map] at hkey
    obtain ⟨kv, hkv, hfst⟩ := List.mem_map.mp hkey
    have hfst2 : kv.1 = key := by
      rw [← hfst]
      exact (collapse_fst kv).symm
    exact groupSpec_keys_subset kids key
      (hfst2 ▸ List.mem_map_of_mem Prod.fst hkv)
  have ht_none : base.lookup "#text" = none :=
    (lookup_eq_none_iff_not_mem base "#text").mpr (fun hmem => (hkeys _ (hbk _ hmem)).1 rfl)
  have ha_none : base.lookup "@attrs" = none :=
    (lookup_eq_none_iff_not_mem base "@attrs").mpr (fun hmem => (hkeys _ (hbk _ hmem)).2 rfl)
  have ha_none2 : (base ++ [("#text", JVal.str txt)]).lookup "@attrs" = none := by
    rw [lookup_append, ha_none]
    rfl
  have hbe : base.isEmpty = kids.isEmpty := by
    rw [hbase, map_isEmpty, groupSpec_isEmpty]
  have hTins : objInsert "#text" (JVal.str txt) base = base ++ [("#text", JVal.str txt)] :=
    objInsert_not_mem _ _ _ ht_none
  have hAins1 : objInsert "@attrs"
      (JVal.obj (a.map (fun kv => (kv.1, JVal.str kv.2)))) base =
      base ++ [("@attrs", JVal.obj (a.map (fun kv => (kv.1, JVal.str kv.2))))] :=
    objInsert_not_mem _ _ _ ha_none
  have hAins2 : objInsert "@attrs"
      (JVal.obj (a.map (fun kv => (kv.1, JVal.str kv.2))))
      (base ++ [("#text", JVal.str txt)]) =
      base ++ [("#text", JVal.str txt)] ++
        [("@attrs", JVal.obj (a.map (fun kv => (kv.1, JVal.str kv.2))))] :=
    objInsert_not_mem _ _ _ ha_none2
  by_cases hT : txt = ""
  · by_cases hK : kids.isEmpty = true
    · by_cases hA : a.isEmpty = true
      · have hbnil : base = [] := List.isEmpty_iff.mp (by rw [hbe]; exact hK)
        simp [wrapNode, hgp, ← hbase, hT, hK, hA, hbnil]
      · simp [wrapNode, hgp, ← hbase, hT, hK, hA, hAins1, hbe,
          append_singleton_isEmpty]
    · by_cases hA : a.isEmpty = true
      · simp [wrapNode, hgp, ← hbase, hT, hK, hA, hbe]
      · simp [wrapNode, hgp, ← hbase, hT, hK, hA, hAins1, hbe,
          append_singleton_isEmpty]
  · by_cases hK : kids.isEmpty = true
    · by_cases hA : a.isEmpty = true
      · simp [wrapNode, hgp, ← hbase, hT, hK, hA, hbe]
      · simp [wrapNode, hgp, ← hbase, hT, hK, hA, hTins, hAins2, hbe,
          append_singleton_isEmpty]
    · by_cases hA : a.isEmpty = true
      · simp [wrapNode, hgp, ← hbase, hT, hK, hA, hTins, hbe,
          append_singleton_isEmpty]
      · simp [wrapNode, hgp, ← hbase, hT, hK, hA, hTins, hAins2, hbe,
          append_singleton_isEmpty]

/-- C5: the generic tree projector satisfies the specification's
`ProjectedNode` shape rules — formalized as a refinement: on every tree
whose child local tags avoid the reserved output keys (true of every
parser-produced tree), `xml_to_dict` coincides with `projectSpec`, the
word-for-word transcription of the spec's rules. -/
theorem C5_projector_shape_rules (e : XmlElem) (hg : goodKids e = true) :
    xml_to_dict e = projectSpec e := by
  revert hg
  refine xmlElem_ind (fun e => goodKids e = true → xml_to_dict e = projectSpec e) ?_ e
  intro e IH hg
  obtain ⟨t, a, x, tl, cs⟩ := e
  have hgl : goodKidsL cs = true := by simpa [goodKids] using hg
  have IH' : ∀ c ∈ cs, xml_to_dict c = projectSpec c := by
    intro c hc
    exact IH c (by simpa using hc) ((goodKidsL_mem cs hgl c hc).2)
  have hkids : projKids cs = projKidsSpec cs := by
    rw [projKids_eq_map, projKidsSpec_eq_map]
    exact List.map_congr_left (fun c hc => by rw [IH' c hc])
  have hkeys : ∀ key ∈ (projKidsSpec cs).map Prod.fst, key ≠ "#text" ∧ key ≠ "@attrs" := by
    intro key hkey
    rw [projKidsSpec_eq_map, List.map_map] at hkey
    obtain ⟨c, hc, hcf⟩ := List.mem_map.mp hkey
    have hcf2 : strip_ns c.tag = key := hcf
    rw [← hcf2]
    exact (goodKidsL_mem cs hgl c hc).1
  show xml_to_dict ⟨t, a, x, tl, cs⟩ = projectSpec ⟨t, a, x, tl, cs⟩
  simp only [xml_to_dict, hkids]
  rw [wrapNode_spec t a (pyStrip (x.getD "")) (projKidsSpec cs) hkeys]
  simp only [projectSpec, projKidsSpec_isEmpty]

/-- C5 witness: the shape rules evaluated on a tree with attributes, a
repeated child tag, whitespace-only root text and a namespaced root. -/
theorem C5_projector_shape_rules_witness :
    goodKids exProjTree = true ∧ xml_to_dict exProjTree = projectSpec exProjTree :=
  ⟨by decide, C5_projector_shape_rules exProjTree (by decide)⟩

end XmlMapper
